import Mathlib

/-!
Shallow embedding of the search-clause / phrase subsystem of
`src/shared/components/query/SearchClause.tsx` and of the mutation-assessor
column formatter, together with proofs about the claims of the
specification.

JavaScript strings are modelled as `List Char`; `toLowerCase` is modelled
per-character by `Char.toLower`; `indexOf(needle) > -1` is modelled by a
substring scan; `split`/`join` on one-character separators are modelled by
`List.splitOn` / `List.intercalate`.  Falsiness of a possibly-absent string
value (`undefined`, `null` or the empty string) is modelled by
`Option (List Char)` being `none` or `some []`.
-/

/-- JavaScript string, modelled as its list of characters. -/
abbrev Str := List Char

/-- Character list of a Lean string literal (used to write concrete inputs). -/
def str (s : String) : Str := s.data

/-- `s.toLowerCase()`, modelled character-wise. -/
def jsToLower (s : Str) : Str := s.map Char.toLower

/-- `hay.indexOf(needle) > -1`: does `hay` contain `needle` as a
contiguous substring?  (Scans every suffix for a prefix match, like the
naive reading of `indexOf`.) -/
def containsSub : Str → Str → Bool
  | [], needle => needle.isEmpty
  | c :: t, needle => needle.isPrefixOf (c :: t) || containsSub t needle

/-- `function matchPhrase(phrase, fullText)` of SearchClause.tsx:
`fullText.toLowerCase().indexOf(phrase.toLowerCase()) > -1`. -/
def matchPhrase (phrase fullText : Str) : Bool :=
  containsSub (jsToLower fullText) (jsToLower phrase)

/-- `CancerTreeNodeFields`: the name of a study attribute (a string key). -/
abbrev CancerTreeNodeFields := Str

/-- External collaborator `CancerTreeNode` (spec section 4.5): any record
exposing string-valued attributes addressable by field name; the core only
reads named fields.  Modelled as a lookup function; `none` is an absent
(`undefined`) field and `some []` an empty-string field, both falsy. -/
abbrev CancerTreeNode := CancerTreeNodeFields → Option Str

/-- `class DefaultPhrase`: the constructor stores its three arguments
unchanged, so the stored fields are exactly the constructor arguments.
The getters `phrase` and `fields` return the stored values directly and
`toString` returns `_textRepresentation`. -/
structure DefaultPhrase where
  phrase : Str
  textRepresentation : Str
  fields : List CancerTreeNodeFields

/-- `class ListPhrase`: stored fields `_phraseList`, `_textRepresentation`,
`_fields`, `_prefix` (the last renamed `prefixValue` here).  Use
`ListPhrase.make` for objects built by the TypeScript constructor. -/
structure ListPhrase where
  phraseList : List Str
  textRepresentation : Str
  fields : List CancerTreeNodeFields
  prefixValue : Str

/-- The `ListPhrase` constructor: splits the phrase argument on
`FILTER_VALUE_SEPARATOR` (the comma) into `_phraseList` and takes the part
of `textRepresentation` before the first `FILTER_SEPARATOR` (the colon) as
`_prefix` (`textRepresentation.split(':')[0]`; the split result is never
empty, so index 0 is its head). -/
def ListPhrase.make (phrase textRepresentation : Str)
    (fields : List CancerTreeNodeFields) : ListPhrase :=
  { phraseList := phrase.splitOn ','
    textRepresentation := textRepresentation
    fields := fields
    prefixValue := (textRepresentation.splitOn ':').headD [] }

/-- The `ListPhrase.phrase` getter: `this._phraseList.join(',')`. -/
def ListPhrase.phrase (p : ListPhrase) : Str :=
  [','].intercalate p.phraseList

/-- The `Phrase` interface with its two implementations.  TypeScript is
structurally typed, so methods taking a `Phrase` receive either variant. -/
inductive Phrase where
  | ofDefault (p : DefaultPhrase)
  | ofList (p : ListPhrase)

/-- The `phrase` getter of either variant (duck-typed access `o.phrase`). -/
def Phrase.phraseGet : Phrase → Str
  | .ofDefault p => p.phrase
  | .ofList p => p.phrase

/-- The `fields` getter of either variant (duck-typed access `o.fields`). -/
def Phrase.fieldsGet : Phrase → List CancerTreeNodeFields
  | .ofDefault p => p.fields
  | .ofList p => p.fields

/-- `toString()` of either variant: returns `_textRepresentation`. -/
def Phrase.toString : Phrase → Str
  | .ofDefault p => p.textRepresentation
  | .ofList p => p.textRepresentation

/-- `DefaultPhrase.match(study)` (named `matchStudy`; `match` is a Lean
keyword): fold over `fields`, OR-accumulating
`fieldMatch = fieldValue truthy && matchPhrase(this.phrase, fieldValue)`. -/
def DefaultPhrase.matchStudy (p : DefaultPhrase) (study : CancerTreeNode) : Bool :=
  p.fields.foldl
    (fun anyFieldMatch fieldName =>
      let fieldValue := study fieldName
      let fieldMatch :=
        match fieldValue with
        | some v => if v.isEmpty then false else matchPhrase p.phrase v
        | none => false
      anyFieldMatch || fieldMatch)
    false

/-- `ListPhrase.match(study)`: same outer fold as `DefaultPhrase.match`,
but for a truthy field value the flag is assigned inside a loop over
`_phraseList`; each iteration assigns
`fieldMatch = matchPhrase(this.phrase, fieldValue)` — the getter
`this.phrase` (the rejoined list), not the loop variable. -/
def ListPhrase.matchStudy (p : ListPhrase) (study : CancerTreeNode) : Bool :=
  p.fields.foldl
    (fun anyFieldMatch fieldName =>
      let fieldValue := study fieldName
      let fieldMatch :=
        match fieldValue with
        | some v =>
          if v.isEmpty then false
          else p.phraseList.foldl
            (fun _fieldMatch _entry => matchPhrase p.phrase v) false
        | none => false
      anyFieldMatch || fieldMatch)
    false

/-- `DefaultPhrase.equals(other)`: `other` may be `null`/`undefined`
(modelled by `none`).  The source reads the duck-typed getters `o.phrase`
and `o.fields` of the argument: `if (!o.phrase || !o.fields) return false`
(`o.fields` is an array on both variants, hence always truthy, so only the
emptiness of `o.phrase` matters), then exact string comparison of the
phrases and `_.isEqual` (structural equality) of the field arrays. -/
def DefaultPhrase.equals (p : DefaultPhrase) (other : Option Phrase) : Bool :=
  match other with
  | none => false
  | some o =>
    if (Phrase.phraseGet o).isEmpty then false
    else if p.phrase ≠ Phrase.phraseGet o then false
    else decide (p.fields = Phrase.fieldsGet o)

/-- `ListPhrase.equals(other)`: reads `o._phraseList`, which is
`undefined` (falsy) when `other` is a `DefaultPhrase`, so any
`DefaultPhrase` argument yields false; otherwise `_.isEqual` of the two
`_phraseList`s and of the two field arrays. -/
def ListPhrase.equals (p : ListPhrase) (other : Option Phrase) : Bool :=
  match other with
  | none => false
  | some (.ofDefault _) => false
  | some (.ofList o) =>
    if p.phraseList ≠ o.phraseList then false
    else decide (p.fields = o.fields)

/-- Dynamic dispatch of `equals` over the two phrase variants. -/
def Phrase.equals : Phrase → Option Phrase → Bool
  | .ofDefault p, other => p.equals other
  | .ofList p, other => p.equals other

/-- The `ISearchClause` interface with its two implementations.
`NotSearchClause` stores one phrase; the source guards `this.phrase ?` and
`!this.phrase`, so the stored value is modelled as an `Option`. -/
inductive ISearchClause where
  | NotSearchClause (phrase : Option Phrase)
  | AndSearchClause (phrases : List Phrase)

/-- The argument of `contains(match: Phrase | null | predicate)`.  The
predicate form is not modelled: no claim concerns it. -/
inductive MatchArg where
  | phraseArg (p : Phrase)
  | nullArg

/-- A possibly-null phrase passed as a `contains` argument. -/
def MatchArg.ofOption : Option Phrase → MatchArg
  | some p => .phraseArg p
  | none => .nullArg

def ISearchClause.isNot : ISearchClause → Bool
  | .NotSearchClause _ => true
  | .AndSearchClause _ => false

def ISearchClause.isAnd : ISearchClause → Bool
  | .NotSearchClause _ => false
  | .AndSearchClause _ => true

/-- `toString()` of the two clause classes.  The not-clause produces
`` `${NOT_PREFIX} ${this.phrase.toString()}` `` (that is, "- " followed by
the phrase) when a phrase is present and the empty string otherwise; the
and-clause joins the phrases with one space when nonempty
(`this.phrases.length ? ... : ''`). -/
def ISearchClause.toString : ISearchClause → Str
  | .NotSearchClause p =>
    match p with
    | some ph => str "- " ++ ph.toString
    | none => []
  | .AndSearchClause ps =>
    if ps.isEmpty then [] else [' '].intercalate (ps.map Phrase.toString)

/-- `contains(match)` of the two clause classes.  With a null argument the
not-clause returns `!this.phrase` and the and-clause
`!this.phrases.length`; with a phrase argument the not-clause returns
`this.phrase.equals(match)` (the source would throw on a null stored
phrase — that arm is unreachable because the constructor always receives a
phrase — modelled as false) and the and-clause returns whether any stored
phrase equals the argument. -/
def ISearchClause.contains : ISearchClause → MatchArg → Bool
  | .NotSearchClause p, .nullArg => p.isNone
  | .NotSearchClause p, .phraseArg m =>
    match p with
    | some ph => ph.equals (some m)
    | none => false
  | .AndSearchClause ps, .nullArg => ps.isEmpty
  | .AndSearchClause ps, .phraseArg m => ps.any (fun ph => ph.equals (some m))

/-- `equals(other)` of the two clause classes.  The not-clause returns
false for an and-clause and otherwise delegates to
`other.contains(this.phrase)`.  The and-clause returns false for a
not-clause and otherwise AND-accumulates `other.contains(p)` over its own
phrases and then `this.contains(q)` over the other clause's phrases
(`(other as AndSearchClause).phrases`, safe after the `isNot` guard). -/
def ISearchClause.equals : ISearchClause → ISearchClause → Bool
  | .NotSearchClause p, other =>
    if other.isAnd then false
    else other.contains (MatchArg.ofOption p)
  | .AndSearchClause ps, other =>
    match other with
    | .NotSearchClause _ => false
    | .AndSearchClause qs =>
      let c1 := ps.foldl
        (fun containsAll itemPhrase =>
          containsAll && (ISearchClause.AndSearchClause qs).contains (.phraseArg itemPhrase))
        true
      qs.foldl
        (fun containsAll itemPhrase =>
          containsAll && (ISearchClause.AndSearchClause ps).contains (.phraseArg itemPhrase))
        c1

namespace MutationAssessorColumnFormatter

/-- `IMutationAssessorFormat`: label, css class name and sort priority. -/
structure IMutationAssessorFormat where
  label : Str
  className : Str
  priority : Nat
  deriving DecidableEq

/-- `MA_SCORE_MAP`: the static lookup from lower-cased impact codes to
display formats; absent keys give `undefined` (`none`). -/
def MA_SCORE_MAP (impact : Str) : Option IMutationAssessorFormat :=
  if impact = str "h" then some ⟨str "High", str "oma-high", 4⟩
  else if impact = str "m" then some ⟨str "Medium", str "oma-medium", 3⟩
  else if impact = str "l" then some ⟨str "Low", str "oma-low", 2⟩
  else if impact = str "n" then some ⟨str "Neutral", str "oma-neutral", 1⟩
  else if impact = str "na" then some ⟨str "NA", str "oma-na", 0⟩
  else none

/-- The slice of the `maData` record produced by `getData` that the
formatter functions read: the functional-impact text, possibly absent. -/
structure MaData where
  impact : Option Str

/-- `getMapEntry(data)`: when `maData.impact` is truthy (present and
nonempty), look its lower-cased form up in `MA_SCORE_MAP`; otherwise
`undefined`. -/
def getMapEntry (d : MaData) : Option IMutationAssessorFormat :=
  match d.impact with
  | some imp => if imp.isEmpty then none else MA_SCORE_MAP (jsToLower imp)
  | none => none

/-- `getTextValue(data)`: the raw impact text when truthy, else "". -/
def getTextValue (d : MaData) : Str :=
  match d.impact with
  | some imp => if imp.isEmpty then [] else imp
  | none => []

/-- `getDisplayValue(data)`: the mapped label when the impact code is
known, else the raw text value. -/
def getDisplayValue (d : MaData) : Str :=
  match getMapEntry d with
  | some entry => entry.label
  | none => getTextValue d

/-- `getScoreClassName(data)`: the mapped css class when the impact code
is known, else "". -/
def getScoreClassName (d : MaData) : Str :=
  match getMapEntry d with
  | some value => value.className
  | none => []

end MutationAssessorColumnFormatter

/-! ## Helper lemmas -/

/-- An OR-accumulating fold computes the initial value OR-ed with `any`. -/
theorem foldl_or_eq {α : Type} (g : α → Bool) :
    ∀ (l : List α) (b : Bool), l.foldl (fun acc x => acc || g x) b = (b || l.any g)
  | [], b => by simp
  | x :: l, b => by
    rw [List.foldl_cons, foldl_or_eq g l (b || g x), List.any_cons, Bool.or_assoc]

/-- An AND-accumulating fold computes the initial value AND-ed with `all`. -/
theorem foldl_and_eq {α : Type} (g : α → Bool) :
    ∀ (l : List α) (b : Bool), l.foldl (fun acc x => acc && g x) b = (b && l.all g)
  | [], b => by simp
  | x :: l, b => by
    rw [List.foldl_cons, foldl_and_eq g l (b && g x), List.all_cons, Bool.and_assoc]

/-- A fold whose body ignores both arguments keeps the initial value on the
empty list and otherwise ends at the constant. -/
theorem foldl_const_eq {α : Type} (c : Bool) :
    ∀ (l : List α) (b : Bool), l.foldl (fun _ _ => c) b = if l.isEmpty then b else c
  | [], _ => rfl
  | _ :: l, b => by
    rw [List.foldl_cons, foldl_const_eq c l c]
    cases l <;> simp

/-- `List.any` only depends on the function's values on the list. -/
theorem any_congr_fn {α : Type} :
    ∀ (l : List α) (f g : α → Bool), (∀ x ∈ l, f x = g x) → l.any f = l.any g
  | [], _, _, _ => rfl
  | x :: l, f, g, h => by
    rw [List.any_cons, List.any_cons, h x (List.mem_cons_self x l),
      any_congr_fn l f g (fun y hy => h y (List.mem_cons_of_mem x hy))]

/-- Splitting a string on a character never yields an empty list. -/
theorem splitOn_ne_nil_char (c : Char) (s : Str) : s.splitOn c ≠ [] := by
  simp only [List.splitOn]
  exact List.splitOnP_ne_nil _ s

/-- The substring scan agrees with list-infix containment. -/
theorem containsSub_iff_infix (hay needle : Str) :
    containsSub hay needle = true ↔ needle <:+: hay := by
  induction hay with
  | nil => simp [containsSub, List.isEmpty_iff, List.infix_nil]
  | cons c t ih =>
    simp [containsSub, List.isPrefixOf_iff_prefix, ih, List.infix_cons_iff]

/-- The per-field test of `DefaultPhrase.matchStudy` succeeds exactly on a
present, nonempty field value containing the phrase case-insensitively. -/
theorem fieldTest_eq_true_iff (phrase : Str) (ov : Option Str) :
    (match ov with
      | some v => if v.isEmpty then false else matchPhrase phrase v
      | none => false) = true
      ↔ ∃ v, ov = some v ∧ v ≠ [] ∧ jsToLower phrase <:+: jsToLower v := by
  cases ov with
  | none => simp
  | some v =>
    by_cases he : v = []
    · subst he
      simp
    · have hem : v.isEmpty = false := by simpa [List.isEmpty_iff] using he
      simp [hem, matchPhrase, containsSub_iff_infix, he]

/-- `DefaultPhrase.matchStudy` as an `any` over the fields. -/
theorem defaultPhrase_matchStudy_eq_any (p : DefaultPhrase) (study : CancerTreeNode) :
    p.matchStudy study = p.fields.any (fun fieldName =>
      match study fieldName with
      | some v => if v.isEmpty then false else matchPhrase p.phrase v
      | none => false) :=
  (foldl_or_eq _ p.fields false).trans (Bool.false_or _)

/-- `ListPhrase.matchStudy` as an `any` over the fields: when `_phraseList`
is nonempty (always true for constructed list phrases), each field is
tested with `matchPhrase` applied to the rejoined phrase getter. -/
theorem listPhrase_matchStudy_eq_any (p : ListPhrase) (study : CancerTreeNode)
    (h : p.phraseList ≠ []) :
    p.matchStudy study = p.fields.any (fun fieldName =>
      match study fieldName with
      | some v => if v.isEmpty then false else matchPhrase p.phrase v
      | none => false) := by
  have h0 : p.matchStudy study = p.fields.any (fun fieldName =>
      match study fieldName with
      | some v =>
        if v.isEmpty then false
        else p.phraseList.foldl (fun _fieldMatch _entry => matchPhrase p.phrase v) false
      | none => false) :=
    (foldl_or_eq _ p.fields false).trans (Bool.false_or _)
  rw [h0]
  refine any_congr_fn _ _ _ (fun fieldName _ => ?_)
  cases hv : study fieldName with
  | none => rfl
  | some v =>
    by_cases he : v.isEmpty
    · simp [he]
    · simp only [he, Bool.false_eq_true, if_false]
      rw [foldl_const_eq]
      cases hpl : p.phraseList with
      | nil => exact absurd hpl h
      | cons a l => simp

/-! ## Claim theorems -/

/-- Claim C1, counterexample: the claim says the field-level flag of
`ListPhrase.match` ends up holding the case-insensitive substring test of
the last iterated `phraseList` entry.  For the list phrase built from
"a,b" (whose last entry is "b") and a study whose `tag` field is "b", that
last entry's test is true, yet `match` returns false: the loop body tests
the whole rejoined string "a,b", not the entry. -/
theorem listPhrase_match_last_entry_cex :
    ((ListPhrase.make (str "a,b") (str "tag:a,b") [str "tag"]).matchStudy
        (fun f => if f = str "tag" then some (str "b") else none) = false)
    ∧ (ListPhrase.make (str "a,b") (str "tag:a,b") [str "tag"]).phraseList.getLast?
        = some (str "b")
    ∧ matchPhrase (str "b") (str "b") = true := by
  decide

/-- Claim C1, amended: for each field with a present nonempty value,
`ListPhrase.match` runs its inner loop once per `phraseList` entry, but
every iteration evaluates the same test — the whole rejoined `phrase`
getter against the field value, ignoring the loop entry — so the
field-level flag holds that single result (the list is nonempty for every
constructed phrase); the per-field results are OR-combined across
fields. -/
theorem listPhrase_match_tests_joined_phrase (phr tr : Str)
    (fields : List CancerTreeNodeFields) (study : CancerTreeNode) :
    (ListPhrase.make phr tr fields).matchStudy study
      = fields.any (fun fieldName =>
          match study fieldName with
          | some v =>
            if v.isEmpty then false
            else matchPhrase (ListPhrase.make phr tr fields).phrase v
          | none => false) :=
  listPhrase_matchStudy_eq_any _ study (splitOn_ne_nil_char ',' phr)

/-- Claim C2: for every constructed `ListPhrase` and every study, `match`
returns exactly what `DefaultPhrase.match` returns for the phrase obtained
by rejoining `phraseList` with a comma — the individual entries never
influence the result. -/
theorem listPhrase_match_refines_defaultPhrase (phr tr : Str)
    (fields : List CancerTreeNodeFields) (study : CancerTreeNode) :
    (ListPhrase.make phr tr fields).matchStudy study
      = DefaultPhrase.matchStudy
          ⟨[','].intercalate (ListPhrase.make phr tr fields).phraseList, tr, fields⟩
          study := by
  rw [listPhrase_matchStudy_eq_any _ study (splitOn_ne_nil_char ',' phr),
    defaultPhrase_matchStudy_eq_any]
  rfl

/-- Claim C3, counterexample: the claim requires `DefaultPhrase.equals` to
be true only when the other phrase is the same (single-value) variant, but
the duck-typed implementation also accepts a `ListPhrase` whose rejoined
phrase and fields coincide. -/
theorem defaultPhrase_equals_variant_cex :
    (⟨str "a", str "t:a", [str "f"]⟩ : DefaultPhrase).equals
      (some (Phrase.ofList (ListPhrase.make (str "a") (str "u:a") [str "f"]))) = true := by
  decide

/-- Claim C3, amended: `DefaultPhrase.equals` is true iff the other phrase
is non-null, its `phrase` getter value (for a list phrase the rejoined
list) is nonempty and equal, case-sensitively, to this phrase string, and
the fields sequences are equal element-wise; the other phrase's variant is
not examined. -/
theorem defaultPhrase_equals_semantics (p : DefaultPhrase) (q : Phrase) :
    p.equals (some q)
      = (!(Phrase.phraseGet q).isEmpty
        && decide (p.phrase = Phrase.phraseGet q)
        && decide (p.fields = Phrase.fieldsGet q)) := by
  unfold DefaultPhrase.equals
  cases h1 : (Phrase.phraseGet q).isEmpty with
  | true => simp [h1]
  | false =>
    by_cases h2 : p.phrase = Phrase.phraseGet q
    · simp [h1, h2, List.isEmpty_iff]
    · simp [h1, h2]

/-- Claim C4, counterexample: reflexivity of `equals` fails for a
`DefaultPhrase` whose phrase string is empty, because the implementation
rejects any argument whose `phrase` value is falsy. -/
theorem phrase_equals_empty_cex :
    (Phrase.ofDefault ⟨[], [], []⟩).equals (some (Phrase.ofDefault ⟨[], [], []⟩)) = false := by
  decide

/-- Claim C4, amended: `equals` is reflexive for every `ListPhrase` and
for every `DefaultPhrase` whose phrase string is nonempty (it fails on an
empty phrase string), and `equals` against null/undefined returns false
rather than an error, for every phrase. -/
theorem phrase_equals_reflexivity_and_null (lp : ListPhrase) (dp : DefaultPhrase)
    (p : Phrase) :
    ((Phrase.ofList lp).equals (some (.ofList lp)) = true)
    ∧ (dp.phrase ≠ [] → (Phrase.ofDefault dp).equals (some (.ofDefault dp)) = true)
    ∧ (p.equals none = false) := by
  refine ⟨?_, ?_, ?_⟩
  · simp [Phrase.equals, ListPhrase.equals]
  · intro h
    simp [Phrase.equals, DefaultPhrase.equals, Phrase.phraseGet, Phrase.fieldsGet,
      List.isEmpty_iff, h]
  · cases p <;> rfl

/-- Witness for the amended C4 theorem at a concrete nonempty phrase. -/
theorem phrase_equals_reflexivity_and_null_witness :
    (Phrase.ofDefault ⟨str "x", str "x", []⟩).equals
      (some (Phrase.ofDefault ⟨str "x", str "x", []⟩)) = true :=
  (phrase_equals_reflexivity_and_null (ListPhrase.make [] [] [])
    ⟨str "x", str "x", []⟩ (Phrase.ofDefault ⟨str "x", str "x", []⟩)).2.1 (by decide)

/-- `AndSearchClause.equals` against another and-clause is the conjunction
of the two mutual-containment `all`s (both AND-accumulating loops). -/
theorem andClause_equals_eq_all (ps qs : List Phrase) :
    (ISearchClause.AndSearchClause ps).equals (.AndSearchClause qs)
      = (ps.all (fun p => (ISearchClause.AndSearchClause qs).contains (.phraseArg p))
        && qs.all (fun q => (ISearchClause.AndSearchClause ps).contains (.phraseArg q))) := by
  simp only [ISearchClause.equals, foldl_and_eq, Bool.true_and]

/-- Claim C5, counterexample: the claim asserts that
`AndSearchClause([a,b]).equals(AndSearchClause([b,a]))` is true for all
phrases; it fails when a phrase is not `equals`-reflexive, here the
`DefaultPhrase` with the empty phrase string. -/
theorem andClause_equals_order_cex :
    (ISearchClause.AndSearchClause
        [Phrase.ofDefault ⟨[], [], []⟩, Phrase.ofDefault ⟨str "x", str "x", []⟩]).equals
      (.AndSearchClause
        [Phrase.ofDefault ⟨str "x", str "x", []⟩, Phrase.ofDefault ⟨[], [], []⟩]) = false := by
  decide

/-- Claim C5, amended: `AndSearchClause.equals` returns false against any
not-clause, and against an and-clause it is exactly mutual containment of
the phrase collections; it is therefore symmetric and depends on the
phrase lists only through containment (so order and duplicates are
irrelevant); `AndSearchClause([a,b]).equals(AndSearchClause([b,a]))` is
true provided each of the two phrases equals itself (which can fail only
for a `DefaultPhrase` with an empty phrase string). -/
theorem andClause_equals_semantics (ps qs : List Phrase) (np : Option Phrase)
    (x y : Phrase) :
    ((ISearchClause.AndSearchClause ps).equals (.NotSearchClause np) = false)
    ∧ ((ISearchClause.AndSearchClause ps).equals (.AndSearchClause qs)
        = (ps.all (fun p => (ISearchClause.AndSearchClause qs).contains (.phraseArg p))
          && qs.all (fun q => (ISearchClause.AndSearchClause ps).contains (.phraseArg q))))
    ∧ ((ISearchClause.AndSearchClause ps).equals (.AndSearchClause qs)
        = (ISearchClause.AndSearchClause qs).equals (.AndSearchClause ps))
    ∧ (x.equals (some x) = true → y.equals (some y) = true →
        (ISearchClause.AndSearchClause [x, y]).equals (.AndSearchClause [y, x]) = true) := by
  refine ⟨rfl, andClause_equals_eq_all ps qs, ?_, ?_⟩
  · rw [andClause_equals_eq_all, andClause_equals_eq_all, Bool.and_comm]
  · intro hx hy
    rw [andClause_equals_eq_all]
    simp [ISearchClause.contains, hx, hy]

/-- Witness for the amended C5 theorem: two concrete self-equal phrases,
swapped between the two and-clauses. -/
theorem andClause_equals_semantics_witness :
    (ISearchClause.AndSearchClause
        [Phrase.ofDefault ⟨str "x", str "x", []⟩, Phrase.ofDefault ⟨str "y", str "y", []⟩]).equals
      (.AndSearchClause
        [Phrase.ofDefault ⟨str "y", str "y", []⟩, Phrase.ofDefault ⟨str "x", str "x", []⟩])
      = true :=
  (andClause_equals_semantics [] [] none
    (Phrase.ofDefault ⟨str "x", str "x", []⟩)
    (Phrase.ofDefault ⟨str "y", str "y", []⟩)).2.2.2 (by decide) (by decide)

/-- Claim C6: `NotSearchClause.equals` returns false whenever the other
clause is an and-clause, whatever either contains, and against any other
clause returns exactly `other.contains(wrappedPhrase)`. -/
theorem notClause_equals_semantics (p : Phrase) (ps : List Phrase) (np : Option Phrase) :
    ((ISearchClause.NotSearchClause (some p)).equals (.AndSearchClause ps) = false)
    ∧ ((ISearchClause.NotSearchClause (some p)).equals (.NotSearchClause np)
        = (ISearchClause.NotSearchClause np).contains (.phraseArg p)) :=
  ⟨rfl, rfl⟩

/-- Claim C7: `DefaultPhrase.match(study)` is true iff some field of the
phrase is present on the study with a nonempty value that contains the
phrase string case-insensitively as a substring; in particular it is false
when every listed field is absent or empty. -/
theorem defaultPhrase_match_semantics (p : DefaultPhrase) (study : CancerTreeNode) :
    (p.matchStudy study = true ↔
      ∃ fieldName ∈ p.fields, ∃ v, study fieldName = some v ∧ v ≠ [] ∧
        jsToLower p.phrase <:+: jsToLower v)
    ∧ ((∀ fieldName ∈ p.fields, study fieldName = none ∨ study fieldName = some []) →
        p.matchStudy study = false) := by
  have hiff : p.matchStudy study = true ↔
      ∃ fieldName ∈ p.fields, ∃ v, study fieldName = some v ∧ v ≠ [] ∧
        jsToLower p.phrase <:+: jsToLower v := by
    rw [defaultPhrase_matchStudy_eq_any, List.any_eq_true]
    exact exists_congr fun f =>
      and_congr_right fun _ => fieldTest_eq_true_iff p.phrase (study f)
  refine ⟨hiff, fun hall => ?_⟩
  rw [Bool.eq_false_iff]
  intro htrue
  obtain ⟨f, hf, v, hv, hne, _⟩ := hiff.mp htrue
  rcases hall f hf with h0 | h0
  · rw [h0] at hv
    cases hv
  · rw [h0] at hv
    injection hv with hv'
    exact hne hv'.symm

/-- Witness for the C7 theorem: a concrete phrase matched against a study
on which every field is absent. -/
theorem defaultPhrase_match_semantics_witness :
    (⟨str "lung", str "type:lung", [str "type"]⟩ : DefaultPhrase).matchStudy
      (fun _ => none) = false :=
  (defaultPhrase_match_semantics ⟨str "lung", str "type:lung", [str "type"]⟩
    (fun _ => none)).2 (fun _ _ => Or.inl rfl)

/-- Claim C8: the `ListPhrase` constructor splits the phrase argument on
the comma into `phraseList` and takes the first colon-separated segment of
`textRepresentation` as the prefix (the whole string when no colon
occurs), and the `phrase` getter rejoins `phraseList`, recovering the
original input exactly. -/
theorem listPhrase_constructor_roundTrip (x tr : Str)
    (fields : List CancerTreeNodeFields) :
    ((ListPhrase.make x tr fields).phraseList = x.splitOn ',')
    ∧ ((ListPhrase.make x tr fields).prefixValue = (tr.splitOn ':').headD [])
    ∧ ((ListPhrase.make x tr fields).phrase = x)
    ∧ (':' ∉ tr → (ListPhrase.make x tr fields).prefixValue = tr) := by
  refine ⟨rfl, rfl, @List.intercalate_splitOn Char x ',' _, fun h => ?_⟩
  have hs : tr.splitOn ':' = [tr] := by
    simp only [List.splitOn]
    refine List.splitOnP_eq_single _ _ (fun a ha hba => ?_)
    rw [beq_iff_eq] at hba
    exact h (hba ▸ ha)
  show (tr.splitOn ':').headD [] = tr
  rw [hs]
  rfl

/-- Witness for the C8 theorem: a representation without a colon keeps the
whole string as prefix. -/
theorem listPhrase_constructor_roundTrip_witness :
    (ListPhrase.make (str "a,b") (str "tag") [str "tag"]).prefixValue = str "tag" :=
  (listPhrase_constructor_roundTrip (str "a,b") (str "tag") [str "tag"]).2.2.2 (by decide)

/-- Claim C9: a not-clause serializes to "- " followed by the wrapped
phrase's representation (empty when no phrase is present) and an
and-clause serializes to the phrases' representations joined by single
spaces in order, the empty clause giving the empty string. -/
theorem clause_toString_semantics (p : Phrase) (np : List Phrase) :
    ((ISearchClause.NotSearchClause (some p)).toString = str "- " ++ p.toString)
    ∧ ((ISearchClause.NotSearchClause none).toString = [])
    ∧ ((ISearchClause.AndSearchClause np).toString
        = [' '].intercalate (np.map Phrase.toString))
    ∧ ((ISearchClause.AndSearchClause []).toString = []) := by
  refine ⟨rfl, rfl, ?_, rfl⟩
  cases np with
  | nil => rfl
  | cons a l => rfl

/-- Claim C10: the mutation-assessor formatter maps impact code "H"
(case-insensitively, via the lower-cased key "h") to label "High", class
"oma-high" and priority 4; an unknown or empty impact makes the display
value fall back to the raw text (empty when absent) and the class name
empty. -/
theorem mutationAssessor_formatter_semantics :
    (MutationAssessorColumnFormatter.getDisplayValue ⟨some (str "H")⟩ = str "High")
    ∧ (MutationAssessorColumnFormatter.getScoreClassName ⟨some (str "H")⟩ = str "oma-high")
    ∧ ((MutationAssessorColumnFormatter.getMapEntry ⟨some (str "H")⟩).map
        MutationAssessorColumnFormatter.IMutationAssessorFormat.priority = some 4)
    ∧ (∀ d, MutationAssessorColumnFormatter.getMapEntry d = none →
        MutationAssessorColumnFormatter.getDisplayValue d
            = MutationAssessorColumnFormatter.getTextValue d
          ∧ MutationAssessorColumnFormatter.getScoreClassName d = [])
    ∧ (MutationAssessorColumnFormatter.getTextValue ⟨none⟩ = []) := by
  refine ⟨by decide, by decide, by decide, fun d h => ⟨?_, ?_⟩, rfl⟩
  · simp [MutationAssessorColumnFormatter.getDisplayValue, h]
  · simp [MutationAssessorColumnFormatter.getScoreClassName, h]

/-- Witness for the C10 theorem: the unknown impact code "zz". -/
theorem mutationAssessor_formatter_semantics_witness :
    MutationAssessorColumnFormatter.getDisplayValue ⟨some (str "zz")⟩
        = MutationAssessorColumnFormatter.getTextValue ⟨some (str "zz")⟩
    ∧ MutationAssessorColumnFormatter.getScoreClassName ⟨some (str "zz")⟩ = [] :=
  mutationAssessor_formatter_semantics.2.2.2.1 ⟨some (str "zz")⟩ (by decide)
